import Mathlib

/-!
Verification of the FINANCE-API asynchronous transaction pipeline.

Shallow embedding of the Go sources:
- `internal/storage/memory.go` : `MemoryStore` with `CreateUser`, `GetUser`,
  `UpsertTx`, `ListTx`. Go maps keyed by UUID are embedded as lists of
  records whose keys are pairwise distinct (the invariant every Go map
  state satisfies by construction); a map assignment becomes
  replace-if-present / append-if-absent.
- `internal/transaction/worker.go` : the `Worker` (bounded channel queue,
  `Enqueue` with non-blocking send, the `Run` processing loop with
  persistence, event construction, schema validation gate and the
  publish/retry policy).
- `internal/api/handlers.go` : the intake path of `CreateTransaction`
  (stores a transaction with status `queued`, then enqueues it).

UUIDs are embedded as `String` (only equality and the string rendering are
used), `time.Time` and `time.Duration` as `Nat` ticks, and `float64`
amounts as `Int` (they are only carried, never computed with). External
collaborators (repository errors, the schema validator, the Kafka
publisher) are oracles passed as function parameters, mirroring the Go
interfaces `TxRepo`, `EventValidator`, `EventPublisher`. Everything the
loop does that is observable (log lines, metric increments, repository
writes, publish calls with their context deadline, sleeps) is recorded in
a trace of `Obs` values, so that claims about "logs X", "never invokes the
publisher" or "increments a counter" become statements about the trace.
-/

namespace FinanceAPI

/-- Embedding of `storage.User` (memory.go). -/
structure User where
  id : String
  name : String
deriving DecidableEq, Repr

/-- Embedding of `storage.Transaction` (memory.go). -/
structure Transaction where
  transactionID : String
  userID : String
  amount : Int
  timestamp : Nat
  status : String
deriving DecidableEq, Repr

/-- Embedding of the storage error values `ErrUserAlreadyExists` and
`ErrUserNotFound` (memory.go). -/
inductive StoreErr where
  | userAlreadyExists
  | userNotFound
deriving DecidableEq, Repr

/-- Embedding of `MemoryStore.CreateUser`: if a user with the same id is
present, return `ErrUserAlreadyExists` and leave the map untouched,
otherwise insert the user. The pair returns the call result together with
the user map after the call. -/
def createUser (users : List User) (u : User) :
    Except StoreErr Unit × List User :=
  if users.any (fun x => x.id = u.id) then
    (Except.error StoreErr.userAlreadyExists, users)
  else
    (Except.ok (), users ++ [u])

/-- Embedding of `MemoryStore.GetUser`: map lookup, `ErrUserNotFound` when
absent. -/
def getUser (users : List User) (id : String) : Except StoreErr User :=
  match users.find? (fun x => x.id = id) with
  | some u => Except.ok u
  | none => Except.error StoreErr.userNotFound

/-- Embedding of `MemoryStore.UpsertTx`: the Go map assignment
`s.txs[t.TransactionID] = t` on the list of stored records — replace the
record with the same key if present, append otherwise. Never fails. -/
def upsertTx (txs : List Transaction) (t : Transaction) : List Transaction :=
  if txs.any (fun x => x.transactionID = t.transactionID) then
    txs.map (fun x => if x.transactionID = t.transactionID then t else x)
  else
    txs ++ [t]

/-- Key uniqueness: the invariant every Go map state has by construction,
stated on the list embedding. -/
def keysNodup (txs : List Transaction) : Prop :=
  (txs.map (fun x => x.transactionID)).Nodup

/-- Embedding of the worker queue: the buffered channel
`make(chan storage.Transaction, queueSize)` of worker.go, as a bounded
FIFO buffer. -/
structure Queue where
  capacity : Nat
  buffer : List Transaction
deriving DecidableEq, Repr

/-- Embedding of `NewWorker`'s channel construction: empty buffer of the
given capacity. -/
def Queue.new (queueSize : Nat) : Queue :=
  { capacity := queueSize, buffer := [] }

/-- Embedding of `Worker.Enqueue`: the non-blocking channel send, a
select with a `w.ch <- t` case and a default case that logs a warning.
The boolean records which select branch ran: `true` when the send
succeeded, `false` when the channel was full and the transaction was
dropped with the warning log. -/
def enqueue (q : Queue) (t : Transaction) : Queue × Bool :=
  if q.buffer.length < q.capacity then
    ({ q with buffer := q.buffer ++ [t] }, true)
  else
    (q, false)

/-- Fold `enqueue` over a list of submissions with no concurrent
consumption, collecting the acceptance results in order. -/
def enqueueAll (q : Queue) (ts : List Transaction) : Queue × List Bool :=
  match ts with
  | [] => (q, [])
  | t :: rest =>
    let (q1, ok) := enqueue q t
    let (q2, oks) := enqueueAll q1 rest
    (q2, ok :: oks)

/-- Embedding of the event map built in step 3 of `Worker.Run`
(worker.go lines 86-93): kind tag, schema version, transaction id, user
id, amount, UTC timestamp. -/
structure DomainEvent where
  type : String
  version : Nat
  id : String
  userId : String
  amount : Int
  timestamp : Nat
deriving DecidableEq, Repr

/-- Event construction from the processed transaction, exactly the literal
map of worker.go (the RFC3339 UTC rendering of the timestamp is kept
abstract as the tick value). -/
def buildEvent (t : Transaction) : DomainEvent :=
  { type := "transaction.created"
    version := 1
    id := t.transactionID
    userId := t.userID
    amount := t.amount
    timestamp := t.timestamp }

/-- Observable actions of the processing loop: log lines, metric
increments, repository writes, validator calls, publish calls (with the
context deadline they were issued under) and sleeps. -/
inductive Obs where
  | logInfo (msg : String)
  | logWarn (msg : String)
  | logError (msg : String)
  | metricFailed (reason : String)
  | repoUpsert (t : Transaction)
  | validateCall (evt : DomainEvent)
  | publishCall (attempt : Nat) (deadline : Nat) (key : String) (evt : DomainEvent)
  | sleep (d : Nat)
deriving DecidableEq, Repr

/-- Worker configuration fields of the `Worker` struct (delay,
publishTimeout, maxRetries, retryBaseBackoff), durations as ticks. -/
structure WorkerCfg where
  delay : Nat
  publishTimeout : Nat
  maxRetries : Nat
  retryBaseBackoff : Nat
deriving DecidableEq, Repr

/-- Defaults set by `NewWorker` (worker.go lines 39-41), in milliseconds. -/
def WorkerCfg.defaults (delay : Nat) : WorkerCfg :=
  { delay := delay
    publishTimeout := 5000
    maxRetries := 3
    retryBaseBackoff := 200 }

/-- Embedding of the publish loop of `Worker.Run` (worker.go lines
111-130): `for attempt := 0; attempt <= maxRetries; attempt++`. The
publisher oracle `pubResult` gives the outcome of the attempt-indexed
call (`none` = success, `some err` = failure). `remaining` counts the
attempts still allowed after the current one, so the Go loop condition
`attempt < maxRetries` (which guards the backoff sleep and the retry) is
`remaining != 0`; the loop is entered with `attempt = 0` and
`remaining = maxRetries`. On failure with attempts remaining the loop
sleeps `(1 <<< attempt) * base` and retries; the last failing attempt is
not followed by a sleep. Every call is recorded with the single
`deadline` established before the loop. Returns the trace and the final
value of `err`. -/
def publishFrom (base : Nat) (deadline : Nat) (key : String)
    (evt : DomainEvent) (pubResult : Nat → Option String) :
    Nat → Nat → List Obs × Option String
  | attempt, remaining =>
    match pubResult attempt with
    | none =>
      ([Obs.logInfo "kafka publish attempt",
        Obs.publishCall attempt deadline key evt,
        Obs.logInfo "kafka published"], none)
    | some e =>
      match remaining with
      | 0 =>
        ([Obs.logInfo "kafka publish attempt",
          Obs.publishCall attempt deadline key evt], some e)
      | r + 1 =>
        let rest := publishFrom base deadline key evt pubResult (attempt + 1) r
        ([Obs.logInfo "kafka publish attempt",
          Obs.publishCall attempt deadline key evt,
          Obs.logWarn "kafka publish retrying",
          Obs.sleep (2 ^ attempt * base)] ++ rest.1,
         rest.2)

/-- Embedding of the per-item body of `Worker.Run` (worker.go lines
71-143), from dequeue of `t` to the end of the publish phase:
1. sleep the processing delay;
2. set status to `processed` and call the repository upsert (`upsert`
   oracle over the abstract `storage.TxRepo`); on error, log and move on;
3. build the event;
4. if a validator is configured, validate; on failure, log and move on;
5. if a publisher is configured, establish one deadline
   `now + delay + publishTimeout` and run the retry loop, else warn and
   skip.
`now` is the time the item is dequeued; only sleeps advance time, so the
publish phase is entered at `now + delay`. Returns the trace and the
repository state after the item. -/
def processItem (cfg : WorkerCfg)
    (upsert : List Transaction → Transaction → Except String (List Transaction))
    (validator : Option (DomainEvent → Option String))
    (pub : Option (Nat → Option String))
    (now : Nat) (store : List Transaction) (t : Transaction) :
    List Obs × List Transaction :=
  let t1 := { t with status := "processed" }
  match upsert store t1 with
  | Except.error _ =>
    ([Obs.sleep cfg.delay, Obs.logError "db upsert failed"], store)
  | Except.ok store1 =>
    let trace1 := [Obs.sleep cfg.delay, Obs.repoUpsert t1,
                   Obs.logInfo "transaction processed"]
    let evt := buildEvent t1
    match validator with
    | some v =>
      match v evt with
      | some _ =>
        (trace1 ++ [Obs.validateCall evt, Obs.logError "schema validation failed"],
         store1)
      | none =>
        (trace1 ++ [Obs.validateCall evt] ++
           processPublish cfg pub now t1 evt, store1)
    | none =>
      (trace1 ++ processPublish cfg pub now t1 evt, store1)
where
  /-- Step 5 of the body: the publish phase (worker.go lines 107-142). -/
  processPublish (cfg : WorkerCfg) (pub : Option (Nat → Option String))
      (now : Nat) (t1 : Transaction) (evt : DomainEvent) : List Obs :=
    match pub with
    | none => [Obs.logWarn "kafka publisher is nil; skipping publish"]
    | some f =>
      let deadline := now + cfg.delay + cfg.publishTimeout
      let res := publishFrom cfg.retryBaseBackoff deadline
        t1.transactionID evt f 0 cfg.maxRetries
      match res.2 with
      | some _ => res.1 ++ [Obs.logError "kafka publish failed permanently"]
      | none => res.1

/-- Count of publish calls in a trace. -/
def pubCalls (l : List Obs) : Nat :=
  l.countP fun o => match o with
    | Obs.publishCall _ _ _ _ => true
    | _ => false

/-- Count of validator invocations in a trace. -/
def validateCalls (l : List Obs) : Nat :=
  l.countP fun o => match o with
    | Obs.validateCall _ => true
    | _ => false

/-- Count of repository writes in a trace. -/
def repoWrites (l : List Obs) : Nat :=
  l.countP fun o => match o with
    | Obs.repoUpsert _ => true
    | _ => false

/-- Number of sleep observations in a trace. -/
def sleepCount (l : List Obs) : Nat :=
  l.countP fun o => match o with
    | Obs.sleep _ => true
    | _ => false

/-- Total duration slept in a trace. -/
def sleepTotal (l : List Obs) : Nat :=
  (l.map fun o => match o with
    | Obs.sleep d => d
    | _ => 0).sum

/-- One interaction with the channel: a producer-side `Enqueue` or the
consumer receiving `t := <-w.ch` in `Worker.Run`. -/
inductive QOp where
  | enq (t : Transaction)
  | deq
deriving DecidableEq, Repr

/-- State of the producer/consumer system around the channel: the buffer,
the sequence of accepted items in acceptance order, and the sequence of
items the single consumer has dequeued for processing, in processing
order. -/
structure SysState where
  q : Queue
  accepted : List Transaction
  processed : List Transaction
deriving DecidableEq, Repr

/-- Initial system state over a fresh `NewWorker` channel. -/
def SysState.init (cap : Nat) : SysState :=
  { q := Queue.new cap, accepted := [], processed := [] }

/-- One step of the system: an enqueue appends to the buffer when
accepted (Go buffered channel send) and is dropped otherwise; a dequeue
takes the oldest buffered item (Go channel receive order) and hands it to
the consumer. A dequeue on an empty buffer is a no-op (the consumer
blocks). -/
def sysStep (s : SysState) (op : QOp) : SysState :=
  match op with
  | QOp.enq t =>
    let r := enqueue s.q t
    if r.2 then
      { s with q := r.1, accepted := s.accepted ++ [t] }
    else
      { s with q := r.1 }
  | QOp.deq =>
    match s.q.buffer with
    | [] => s
    | t :: rest =>
      { q := { s.q with buffer := rest }
        accepted := s.accepted
        processed := s.processed ++ [t] }

/-- Run the system from the initial state over a sequence of operations. -/
def sysRun (cap : Nat) (ops : List QOp) : SysState :=
  ops.foldl sysStep (SysState.init cap)

/-- Repository-writing events of the running system: the intake handler
`CreateTransaction` persisting a new transaction with status `queued`
(handlers.go) and the worker persisting it with status `processed`
(worker.go line 76). These are the only two code paths that write
transactions. -/
inductive RepoEvent where
  | intake (t : Transaction)
  | workerProcess (t : Transaction)
deriving DecidableEq, Repr

/-- Effect of one repository-writing event on the stored transactions:
the intake handler builds its record with `Status: "queued"` and calls
`UpsertTx`; the worker sets `t.Status = "processed"` and calls
`UpsertTx`. -/
def repoStep (txs : List Transaction) : RepoEvent → List Transaction
  | RepoEvent.intake t => upsertTx txs { t with status := "queued" }
  | RepoEvent.workerProcess t => upsertTx txs { t with status := "processed" }

/-- Repository states reachable from the empty store through the two
writing paths. -/
def repoRun (evs : List RepoEvent) : List Transaction :=
  evs.foldl repoStep []

/-- Sample transactions for concrete witnesses. -/
def txA : Transaction :=
  { transactionID := "tx-a", userID := "user-1", amount := 10,
    timestamp := 100, status := "queued" }

/-- Second sample transaction. -/
def txB : Transaction :=
  { transactionID := "tx-b", userID := "user-1", amount := 20,
    timestamp := 200, status := "queued" }

/-- Third sample transaction. -/
def txC : Transaction :=
  { transactionID := "tx-c", userID := "user-2", amount := 30,
    timestamp := 300, status := "queued" }

/-!  Lemmas about the queue. -/

theorem enqueue_result (N : Nat) (buf : List Transaction) (t : Transaction) :
    enqueue { capacity := N, buffer := buf } t =
      if buf.length < N then
        ({ capacity := N, buffer := buf ++ [t] }, true)
      else
        ({ capacity := N, buffer := buf }, false) := by
  unfold enqueue
  by_cases h : buf.length < N <;> simp [h]

theorem enqueueAll_results (N : Nat) (ts : List Transaction) :
    ∀ buf : List Transaction,
      (enqueueAll { capacity := N, buffer := buf } ts).2 =
        (List.range ts.length).map (fun i => decide (buf.length + i < N)) := by
  induction ts with
  | nil => intro buf; simp [enqueueAll]
  | cons t rest ih =>
    intro buf
    rw [enqueueAll, enqueue_result]
    by_cases h : buf.length < N
    · simp only [h, if_true, List.length_cons, List.range_succ_eq_map,
        List.map_cons, List.map_map]
      rw [List.cons_eq_cons]
      constructor
      · simp [h]
      · rw [ih (buf ++ [t])]
        apply List.map_congr_left
        intro i _
        simp only [Function.comp_apply, List.length_append, List.length_cons,
          List.length_nil, decide_eq_decide]
        omega
    · simp only [h, if_false, List.length_cons, List.range_succ_eq_map,
        List.map_cons, List.map_map]
      rw [List.cons_eq_cons]
      constructor
      · simp [h]
      · rw [ih buf]
        apply List.map_congr_left
        intro i _
        simp only [Function.comp_apply, decide_eq_decide]
        omega

theorem range_map_decide_lt (n m : Nat) (h : n ≤ m) :
    (List.range n).map (fun i => decide (i < m)) = List.replicate n true := by
  induction n with
  | zero => simp
  | succ k ih =>
    rw [List.range_succ, List.map_append, ih (by omega)]
    simp only [List.map_cons, List.map_nil]
    rw [List.replicate_succ']
    simp only [List.append_cancel_left_eq, List.cons.injEq, and_true,
      decide_eq_true_eq]
    omega

/-- Claim C1: enqueue on a fresh queue of capacity N accepts the first N
submissions and rejects the (N+1)th immediately; the acceptance outcome
is the select branch taken by the non-blocking send (`true` = sent,
`false` = dropped). -/
theorem c1_enqueue_capacity (N : Nat) (ts : List Transaction)
    (h : ts.length = N + 1) :
    (enqueueAll (Queue.new N) ts).2 = List.replicate N true ++ [false] := by
  unfold Queue.new
  rw [enqueueAll_results N ts []]
  simp only [List.length_nil, Nat.zero_add, h]
  rw [List.range_succ, List.map_append, range_map_decide_lt N N (Nat.le_refl N)]
  simp

/-- Witness for C1 at capacity 2 with three concrete submissions
(Scenario A of the spec). -/
theorem c1_enqueue_capacity_witness :
    ([txA, txB, txC].length = 2 + 1) ∧
      (enqueueAll (Queue.new 2) [txA, txB, txC]).2 =
        List.replicate 2 true ++ [false] :=
  ⟨rfl, c1_enqueue_capacity 2 [txA, txB, txC] rfl⟩

/-!  Lemmas about the publish/retry loop. -/

theorem sum_map_mul_const (c : Nat) (g : Nat → Nat) (l : List Nat) :
    ((l.map (fun i => g i * c)).sum = c * (l.map g).sum) := by
  induction l with
  | nil => simp
  | cons a rest ih =>
    simp only [List.map_cons, List.sum_cons, ih, Nat.mul_add]
    rw [Nat.mul_comm (g a) c]

theorem publishFrom_always_fail (base dl : Nat) (key : String)
    (evt : DomainEvent) (f : Nat → Option String) (e : String)
    (hf : ∀ n, f n = some e) :
    ∀ remaining attempt,
      pubCalls (publishFrom base dl key evt f attempt remaining).1 =
        remaining + 1 ∧
      sleepTotal (publishFrom base dl key evt f attempt remaining).1 =
        ((List.range remaining).map (fun i => 2 ^ (attempt + i) * base)).sum ∧
      sleepCount (publishFrom base dl key evt f attempt remaining).1 =
        remaining ∧
      (publishFrom base dl key evt f attempt remaining).1.getLast? =
        some (Obs.publishCall (attempt + remaining) dl key evt) ∧
      (publishFrom base dl key evt f attempt remaining).2 = some e := by
  intro remaining
  induction remaining with
  | zero =>
    intro attempt
    rw [publishFrom, hf attempt]
    simp [pubCalls, sleepTotal, sleepCount]
  | succ r ih =>
    intro attempt
    rw [publishFrom, hf attempt]
    obtain ⟨h1, h2, h3, h4, h5⟩ := ih (attempt + 1)
    refine ⟨?_, ?_, ?_, ?_, ?_⟩
    · simp [pubCalls, List.countP_append, List.countP_cons] at h1 ⊢
      omega
    · simp only [sleepTotal, List.map_append, List.sum_append, List.map_cons,
        List.sum_cons, List.map_nil, List.sum_nil] at h2 ⊢
      rw [h2, List.range_succ_eq_map, List.map_cons, List.sum_cons,
        List.map_map]
      have hmc : ((List.range r).map (fun i => 2 ^ (attempt + 1 + i) * base))
          = (List.range r).map
              ((fun i => 2 ^ (attempt + i) * base) ∘ Nat.succ) := by
        apply List.map_congr_left
        intro i _
        simp only [Function.comp_apply]
        congr 2
        omega
      rw [hmc]
      simp
    · simp [sleepCount, List.countP_append, List.countP_cons] at h3 ⊢
      omega
    · have hne : (publishFrom base dl key evt f (attempt + 1) r).1 ≠ [] := by
        intro hnil
        rw [hnil] at h4
        simp at h4
      have hatt : attempt + 1 + r = attempt + (r + 1) := by omega
      rw [hatt] at h4
      rw [List.getLast?_append_of_ne_nil _ hne]
      exact h4
    · exact h5

/-- Claim C3: with maxRetries = r and an always-failing publisher, the
retry loop of the publish phase makes exactly r + 1 publish calls, the
total backoff slept between attempts is
retryBaseBackoff * (2^0 + 2^1 + ... + 2^(r-1)), and the trace ends with
the final publish call — no backoff sleep follows the last failing
attempt. -/
theorem c3_publish_attempt_bound (r base dl : Nat) (key : String)
    (evt : DomainEvent) (f : Nat → Option String) (e : String)
    (hf : ∀ n, f n = some e) :
    pubCalls (publishFrom base dl key evt f 0 r).1 = r + 1 ∧
    sleepTotal (publishFrom base dl key evt f 0 r).1 =
      base * ((List.range r).map (fun i => 2 ^ i)).sum ∧
    sleepCount (publishFrom base dl key evt f 0 r).1 = r ∧
    (publishFrom base dl key evt f 0 r).1.getLast? =
      some (Obs.publishCall r dl key evt) := by
  have h := publishFrom_always_fail base dl key evt f e hf r 0
  obtain ⟨h1, h2, h3, h4, _⟩ := h
  rw [Nat.zero_add] at h4
  refine ⟨h1, ?_, h3, h4⟩
  rw [h2]
  simp only [Nat.zero_add]
  exact sum_map_mul_const base (fun i => 2 ^ i) (List.range r)

/-- Witness for C3: maxRetries = 2, base backoff 200, publisher failing
every time — 3 calls, 200 + 400 total backoff (Scenario C of the
spec). -/
theorem c3_publish_attempt_bound_witness :
    pubCalls (publishFrom 200 705 "tx-a" (buildEvent txA)
        (fun _ => some "broker down") 0 2).1 = 2 + 1 ∧
    sleepTotal (publishFrom 200 705 "tx-a" (buildEvent txA)
        (fun _ => some "broker down") 0 2).1 =
      200 * ((List.range 2).map (fun i => 2 ^ i)).sum :=
  ⟨(c3_publish_attempt_bound 2 200 705 "tx-a" (buildEvent txA)
      (fun _ => some "broker down") "broker down" (fun _ => rfl)).1,
   (c3_publish_attempt_bound 2 200 705 "tx-a" (buildEvent txA)
      (fun _ => some "broker down") "broker down" (fun _ => rfl)).2.1⟩

/-- The MemoryStore implementation of the repository upsert, lifted to
the Except-valued `TxRepo` interface (`MemoryStore.UpsertTx` always
returns a nil error). -/
def memUpsert (s : List Transaction) (t : Transaction) :
    Except String (List Transaction) :=
  Except.ok (upsertTx s t)

theorem publishFrom_deadline (base dl : Nat) (key : String)
    (evt : DomainEvent) (f : Nat → Option String) :
    ∀ remaining attempt a0 d0 k0 e0,
      Obs.publishCall a0 d0 k0 e0 ∈
          (publishFrom base dl key evt f attempt remaining).1 →
        d0 = dl := by
  intro remaining
  induction remaining with
  | zero =>
    intro attempt a0 d0 k0 e0 ho
    rw [publishFrom] at ho
    cases hfa : f attempt with
    | none =>
      rw [hfa] at ho
      simp at ho
      exact ho.2.1
    | some e =>
      rw [hfa] at ho
      simp at ho
      exact ho.2.1
  | succ r ih =>
    intro attempt a0 d0 k0 e0 ho
    rw [publishFrom] at ho
    cases hfa : f attempt with
    | none =>
      rw [hfa] at ho
      simp at ho
      exact ho.2.1
    | some e =>
      rw [hfa] at ho
      simp only [List.cons_append, List.nil_append, List.mem_cons] at ho
      rcases ho with h | h | h | h | h
      · exact absurd h (by simp)
      · cases h; rfl
      · exact absurd h (by simp)
      · exact absurd h (by simp)
      · exact ih (attempt + 1) a0 d0 k0 e0 h

theorem processPublish_deadline (cfg : WorkerCfg)
    (pub : Option (Nat → Option String)) (now : Nat) (t1 : Transaction)
    (evt : DomainEvent) (a0 d0 : Nat) (k0 : String) (e0 : DomainEvent)
    (h : Obs.publishCall a0 d0 k0 e0 ∈
      processItem.processPublish cfg pub now t1 evt) :
    d0 = now + cfg.delay + cfg.publishTimeout := by
  unfold processItem.processPublish at h
  cases pub with
  | none => simp at h
  | some f =>
    simp only at h
    cases hres : (publishFrom cfg.retryBaseBackoff
        (now + cfg.delay + cfg.publishTimeout) t1.transactionID evt f 0
        cfg.maxRetries).2 with
    | some e =>
      rw [hres] at h
      simp only [List.mem_append, List.mem_singleton] at h
      rcases h with h | h
      · exact publishFrom_deadline cfg.retryBaseBackoff
          (now + cfg.delay + cfg.publishTimeout) t1.transactionID evt f
          cfg.maxRetries 0 a0 d0 k0 e0 h
      · exact absurd h (by simp)
    | none =>
      rw [hres] at h
      exact publishFrom_deadline cfg.retryBaseBackoff
        (now + cfg.delay + cfg.publishTimeout) t1.transactionID evt f
        cfg.maxRetries 0 a0 d0 k0 e0 h

/-- Claim C4: every publish attempt an item generates is issued under the
single deadline established on entering the publish phase,
(entry time) + publishTimeout; the deadline is never reset between
attempts. -/
theorem c4_single_publish_deadline (cfg : WorkerCfg)
    (upsert : List Transaction → Transaction → Except String (List Transaction))
    (validator : Option (DomainEvent → Option String))
    (pub : Option (Nat → Option String)) (now : Nat)
    (store : List Transaction) (t : Transaction)
    (a0 d0 : Nat) (k0 : String) (e0 : DomainEvent)
    (h : Obs.publishCall a0 d0 k0 e0 ∈
      (processItem cfg upsert validator pub now store t).1) :
    d0 = now + cfg.delay + cfg.publishTimeout := by
  simp only [processItem] at h
  split at h
  · simp at h
  · split at h
    · split at h
      · simp at h
      · simp at h
        exact processPublish_deadline cfg pub now _ _ a0 d0 k0 e0 h
    · simp at h
      exact processPublish_deadline cfg pub now _ _ a0 d0 k0 e0 h

/-- Small concrete worker configuration for witnesses: delay 1,
publishTimeout 5, maxRetries 1, base backoff 2. -/
def cfgW : WorkerCfg :=
  { delay := 1, publishTimeout := 5, maxRetries := 1, retryBaseBackoff := 2 }

/-- Witness for C4: a concrete run with delay 1, publishTimeout 5, an
always-failing publisher; the first attempt is recorded under deadline
6 = (0 + 1) + 5 and the theorem confirms that deadline. -/
theorem c4_single_publish_deadline_witness :
    (Obs.publishCall 0 6 "tx-a" (buildEvent { txA with status := "processed" }) ∈
      (processItem cfgW memUpsert none (some fun _ => some "broker down")
        0 [] txA).1) ∧
      (6 : Nat) = 0 + cfgW.delay + cfgW.publishTimeout :=
  ⟨by decide,
   c4_single_publish_deadline cfgW
     memUpsert none (some fun _ => some "broker down") 0 [] txA
     0 6 "tx-a" (buildEvent { txA with status := "processed" }) (by decide)⟩

/-!  Per-item processing: the no-publisher, validation-failure and
db-failure paths. -/

/-- Claim C6: with no publisher configured, processing a dequeued
transaction still sets its status to processed and persists it via the
repository upsert; the publish phase is skipped with a warning and no
publish attempt is made. -/
theorem c6_no_publisher_pass_through (cfg : WorkerCfg) (now : Nat)
    (store : List Transaction) (t : Transaction) :
    processItem cfg memUpsert none none now store t =
      ([Obs.sleep cfg.delay,
        Obs.repoUpsert { t with status := "processed" },
        Obs.logInfo "transaction processed",
        Obs.logWarn "kafka publisher is nil; skipping publish"],
       upsertTx store { t with status := "processed" }) ∧
    pubCalls (processItem cfg memUpsert none none now store t).1 = 0 :=
  ⟨rfl, rfl⟩

/-- Claim C5: when the configured validator rejects the event of an item,
the publisher is never invoked for it, and the only repository write is
the one that persisted the transaction with status processed — the final
store is exactly the single upsert of the processed transaction. -/
theorem c5_validation_gate (cfg : WorkerCfg)
    (v : DomainEvent → Option String) (pub : Option (Nat → Option String))
    (now : Nat) (store : List Transaction) (t : Transaction) (err : String)
    (hv : v (buildEvent { t with status := "processed" }) = some err) :
    processItem cfg memUpsert (some v) pub now store t =
      ([Obs.sleep cfg.delay,
        Obs.repoUpsert { t with status := "processed" },
        Obs.logInfo "transaction processed",
        Obs.validateCall (buildEvent { t with status := "processed" }),
        Obs.logError "schema validation failed"],
       upsertTx store { t with status := "processed" }) ∧
    pubCalls (processItem cfg memUpsert (some v) pub now store t).1 = 0 ∧
    repoWrites (processItem cfg memUpsert (some v) pub now store t).1 = 1 := by
  have hres : processItem cfg memUpsert (some v) pub now store t =
      ([Obs.sleep cfg.delay,
        Obs.repoUpsert { t with status := "processed" },
        Obs.logInfo "transaction processed",
        Obs.validateCall (buildEvent { t with status := "processed" }),
        Obs.logError "schema validation failed"],
       upsertTx store { t with status := "processed" }) := by
    simp [processItem, memUpsert, hv]
  refine ⟨hres, ?_, ?_⟩
  · rw [hres]
    rfl
  · rw [hres]
    rfl

/-- Witness for C5: a validator that rejects everything on a concrete
transaction — no publish call is made even though a publisher is
configured. -/
theorem c5_validation_gate_witness :
    pubCalls (processItem cfgW memUpsert (some fun _ => some "schema err")
      (some fun _ => none) 0 [] txA).1 = 0 :=
  (c5_validation_gate cfgW (fun _ => some "schema err") (some fun _ => none)
    0 [] txA "schema err" rfl).2.1

/-- Counterexample to claim C2 as stated: when the repository upsert
fails, the worker loop does not increment any failure counter — in
particular no `db`-tagged metric appears in the trace of a failing item
(worker.go imports no telemetry and calls no metric helper; the
`IncTransactionsFailed("db")` call lives in the intake handler). -/
theorem c2_counterexample :
    Obs.metricFailed "db" ∉
      (processItem cfgW (fun _ _ => Except.error "db down") none none
        0 [] txA).1 := by
  decide

/-- Claim C2 (amended): for a dequeued transaction whose repository
upsert fails, the loop logs the error and moves to the next item: the
store is left unchanged, no domain event is validated, no publish call is
made, and no failure counter is incremented. -/
theorem c2_db_failure_terminal (cfg : WorkerCfg)
    (upsert : List Transaction → Transaction → Except String (List Transaction))
    (validator : Option (DomainEvent → Option String))
    (pub : Option (Nat → Option String)) (now : Nat)
    (store : List Transaction) (t : Transaction) (e : String)
    (hup : upsert store { t with status := "processed" } = Except.error e) :
    processItem cfg upsert validator pub now store t =
      ([Obs.sleep cfg.delay, Obs.logError "db upsert failed"], store) ∧
    pubCalls (processItem cfg upsert validator pub now store t).1 = 0 ∧
    validateCalls (processItem cfg upsert validator pub now store t).1 = 0 ∧
    ∀ reason,
      Obs.metricFailed reason ∉
        (processItem cfg upsert validator pub now store t).1 := by
  have hres : processItem cfg upsert validator pub now store t =
      ([Obs.sleep cfg.delay, Obs.logError "db upsert failed"], store) := by
    simp [processItem, hup]
  refine ⟨hres, ?_, ?_, ?_⟩
  · rw [hres]
    rfl
  · rw [hres]
    rfl
  · intro reason
    rw [hres]
    simp

/-- Witness for the amended C2 at a concrete always-failing repository. -/
theorem c2_db_failure_terminal_witness :
    processItem cfgW (fun _ _ => Except.error "db down") none none
        0 [] txA =
      ([Obs.sleep cfgW.delay, Obs.logError "db upsert failed"], []) :=
  (c2_db_failure_terminal cfgW (fun _ _ => Except.error "db down") none none
    0 [] txA "db down" rfl).1

/-!  FIFO ordering of the producer/consumer system. -/

theorem sysStep_inv (s : SysState) (op : QOp)
    (h : s.processed ++ s.q.buffer = s.accepted) :
    (sysStep s op).processed ++ (sysStep s op).q.buffer =
      (sysStep s op).accepted := by
  cases op with
  | enq t =>
    simp only [sysStep, enqueue]
    by_cases hc : s.q.buffer.length < s.q.capacity
    · simp only [hc, if_true]
      rw [← h, List.append_assoc]
    · simp only [hc, if_false]
      exact h
  | deq =>
    simp only [sysStep]
    cases hb : s.q.buffer with
    | nil =>
      simp only [hb]
      simpa [hb] using h
    | cons x rest =>
      simp only [hb]
      rw [hb] at h
      rw [← h, List.append_assoc]
      rfl

theorem foldl_sysStep_inv (ops : List QOp) :
    ∀ s : SysState, s.processed ++ s.q.buffer = s.accepted →
      (ops.foldl sysStep s).processed ++ (ops.foldl sysStep s).q.buffer =
        (ops.foldl sysStep s).accepted := by
  induction ops with
  | nil => intro s h; exact h
  | cons op rest ih =>
    intro s h
    exact ih (sysStep s op) (sysStep_inv s op h)

/-- Claim C7: the single consumer dequeues and processes accepted items
in exactly the order they were accepted: after any interleaving of
enqueues and dequeues, the processed sequence followed by the still
buffered items is the accepted sequence — so the processed sequence is
always the acceptance-ordered prefix of the accepted items, with no
reordering. -/
theorem c7_fifo (cap : Nat) (ops : List QOp) :
    (sysRun cap ops).processed ++ (sysRun cap ops).q.buffer =
      (sysRun cap ops).accepted :=
  foldl_sysStep_inv ops (SysState.init cap) rfl

/-!  Idempotent persistence by transaction identity. -/

/-- Records stored under a given transaction identity. -/
def recordsFor (txs : List Transaction) (k : String) : List Transaction :=
  txs.filter (fun x => x.transactionID = k)

instance (txs : List Transaction) : Decidable (keysNodup txs) := by
  unfold keysNodup
  infer_instance

theorem upsertTx_keysNodup (txs : List Transaction) (t : Transaction)
    (h : keysNodup txs) : keysNodup (upsertTx txs t) := by
  unfold upsertTx
  by_cases hany : txs.any (fun x => x.transactionID = t.transactionID)
  · simp only [hany, if_true]
    unfold keysNodup at h ⊢
    have hids : (txs.map
        (fun x => if x.transactionID = t.transactionID then t else x)).map
          (fun x => x.transactionID) = txs.map (fun x => x.transactionID) := by
      rw [List.map_map]
      apply List.map_congr_left
      intro x _
      by_cases hx : x.transactionID = t.transactionID
      · simp [hx]
      · simp [hx]
    rw [hids]
    exact h
  · rw [if_neg hany]
    unfold keysNodup at h ⊢
    rw [List.map_append]
    simp only [List.map_cons, List.map_nil]
    rw [List.nodup_append]
    refine ⟨h, List.nodup_singleton _, ?_⟩
    intro k hk hmem
    simp only [List.mem_singleton] at hmem
    subst hmem
    rcases List.mem_map.1 hk with ⟨x, hx, hid⟩
    rw [List.any_eq_true] at hany
    exact hany ⟨x, hx, by simp [hid]⟩

theorem filter_map_replace (t : Transaction) :
    ∀ txs : List Transaction, keysNodup txs →
      txs.any (fun x => x.transactionID = t.transactionID) →
      (txs.map (fun x => if x.transactionID = t.transactionID then t else x)).filter
        (fun x => x.transactionID = t.transactionID) = [t] := by
  intro txs
  induction txs with
  | nil =>
    intro _ hany
    simp at hany
  | cons a rest ih =>
    intro h hany
    unfold keysNodup at h
    simp only [List.map_cons, List.nodup_cons] at h
    obtain ⟨hnotin, hrest⟩ := h
    by_cases ha : a.transactionID = t.transactionID
    · simp only [List.map_cons, ha, if_true, List.filter_cons, decide_True,
        if_true]
      have hrestnil : ((rest.map
          (fun x => if x.transactionID = t.transactionID then t else x)).filter
            (fun x => decide (x.transactionID = t.transactionID))) = [] := by
        rw [List.filter_eq_nil_iff]
        intro y hy
        rcases List.mem_map.1 hy with ⟨x, hx, hfx⟩
        have hxid : x.transactionID ≠ t.transactionID := by
          intro hcon
          apply hnotin
          rw [← ha] at hcon
          exact List.mem_map.2 ⟨x, hx, hcon⟩
        rw [if_neg hxid] at hfx
        subst hfx
        simp [hxid]
      simp only [List.cons.injEq, true_and]
      exact hrestnil
    · have hany2 : rest.any (fun x => x.transactionID = t.transactionID) := by
        rw [List.any_eq_true] at hany ⊢
        rcases hany with ⟨x, hx, hpx⟩
        rcases List.mem_cons.1 hx with hxa | hxr
        · subst hxa
          simp [ha] at hpx
        · exact ⟨x, hxr, hpx⟩
      simp only [List.map_cons, ha, if_false, List.filter_cons, decide_False,
        if_false]
      exact ih hrest hany2

theorem recordsFor_upsertTx (txs : List Transaction) (t : Transaction)
    (h : keysNodup txs) :
    recordsFor (upsertTx txs t) t.transactionID = [t] := by
  unfold upsertTx recordsFor
  by_cases hany : txs.any (fun x => x.transactionID = t.transactionID)
  · simp only [hany, if_true]
    exact filter_map_replace t txs h hany
  · rw [if_neg hany]
    rw [List.filter_append]
    have h1 : txs.filter
        (fun x => decide (x.transactionID = t.transactionID)) = [] := by
      rw [List.filter_eq_nil_iff]
      intro x hx
      rw [List.any_eq_true] at hany
      simp only [decide_eq_true_eq]
      intro hcon
      exact hany ⟨x, hx, by simp [hcon]⟩
    rw [h1]
    simp

/-- Claim C8: upserts are idempotent by transaction identity: from any
store whose keys are unique (every Go map state), upserting two
transactions with the same identity leaves exactly one stored record for
that identity, equal to the latest write, and preserves key uniqueness
(never duplicates). -/
theorem c8_upsert_idempotent (txs : List Transaction) (t1 t2 : Transaction)
    (hn : keysNodup txs) (hid : t1.transactionID = t2.transactionID) :
    recordsFor (upsertTx (upsertTx txs t1) t2) t1.transactionID = [t2] ∧
    keysNodup (upsertTx (upsertTx txs t1) t2) := by
  have hn1 : keysNodup (upsertTx txs t1) := upsertTx_keysNodup txs t1 hn
  refine ⟨?_, upsertTx_keysNodup _ t2 hn1⟩
  rw [hid]
  exact recordsFor_upsertTx (upsertTx txs t1) t2 hn1

/-- Witness for C8: two upserts of the same identity with amounts 10 and
99 against a one-record store leave exactly the latest record. -/
theorem c8_upsert_idempotent_witness :
    recordsFor (upsertTx (upsertTx [txB] txA) { txA with amount := 99 })
        txA.transactionID = [{ txA with amount := 99 }] ∧
    keysNodup (upsertTx (upsertTx [txB] txA) { txA with amount := 99 }) :=
  c8_upsert_idempotent [txB] txA { txA with amount := 99 } (by decide) rfl

/-!  Reachable repository states and user creation. -/

theorem mem_upsertTx (txs : List Transaction) (t x : Transaction)
    (hx : x ∈ upsertTx txs t) : x = t ∨ x ∈ txs := by
  unfold upsertTx at hx
  by_cases hany : txs.any (fun y => y.transactionID = t.transactionID)
  · rw [if_pos hany] at hx
    rcases List.mem_map.1 hx with ⟨y, hy, hfy⟩
    by_cases hyid : y.transactionID = t.transactionID
    · rw [if_pos hyid] at hfy
      exact Or.inl hfy.symm
    · rw [if_neg hyid] at hfy
      exact Or.inr (hfy ▸ hy)
  · rw [if_neg hany] at hx
    rcases List.mem_append.1 hx with hmem | hmem
    · exact Or.inr hmem
    · exact Or.inl (List.mem_singleton.1 hmem)

theorem repoRun_status (evs : List RepoEvent) :
    ∀ s : List Transaction,
      (∀ x ∈ s, x.status = "queued" ∨ x.status = "processed") →
      ∀ x ∈ evs.foldl repoStep s, x.status = "queued" ∨ x.status = "processed" := by
  induction evs with
  | nil =>
    intro s hs x hx
    exact hs x hx
  | cons ev rest ih =>
    intro s hs x hx
    refine ih (repoStep s ev) ?_ x hx
    intro y hy
    cases ev with
    | intake t =>
      rcases mem_upsertTx s { t with status := "queued" } y hy with h | h
      · subst h
        exact Or.inl rfl
      · exact hs y h
    | workerProcess t =>
      rcases mem_upsertTx s { t with status := "processed" } y hy with h | h
      · subst h
        exact Or.inr rfl
      · exact hs y h

/-- Claim C9: in every repository state reachable through the two writing
code paths (the intake handler, which stores with status queued, and the
worker, which stores with status processed), every stored transaction has
status queued or processed — no path ever writes status failed even
though the status enumeration admits it. -/
theorem c9_no_failed_status (evs : List RepoEvent) (x : Transaction)
    (hx : x ∈ repoRun evs) :
    x.status = "queued" ∨ x.status = "processed" :=
  repoRun_status evs [] (by intro y hy; exact absurd hy (List.not_mem_nil y))
    x hx

/-- Witness for C9: a concrete run — intake of two transactions and
worker processing of one — in which the processed record has an allowed
status. -/
theorem c9_no_failed_status_witness :
    ({ txA with status := "processed" } ∈
      repoRun [RepoEvent.intake txA, RepoEvent.intake txB,
        RepoEvent.workerProcess txA]) ∧
      (({ txA with status := "processed" } : Transaction).status = "queued" ∨
        ({ txA with status := "processed" } : Transaction).status = "processed") :=
  ⟨by decide,
   c9_no_failed_status
     [RepoEvent.intake txA, RepoEvent.intake txB, RepoEvent.workerProcess txA]
     { txA with status := "processed" } (by decide)⟩

/-- Claim C10: `MemoryStore.CreateUser` succeeds exactly when no user
with the given id exists; when one exists it returns
`ErrUserAlreadyExists` and leaves the stored users unchanged. -/
theorem c10_createUser (users : List User) (u : User) :
    ((createUser users u).1 = Except.ok () ↔ ∀ x ∈ users, x.id ≠ u.id) ∧
    ((∃ x ∈ users, x.id = u.id) →
      (createUser users u).1 = Except.error StoreErr.userAlreadyExists ∧
      (createUser users u).2 = users) ∧
    ((∀ x ∈ users, x.id ≠ u.id) → (createUser users u).2 = users ++ [u]) := by
  unfold createUser
  by_cases h : users.any (fun x => x.id = u.id)
  · rw [if_pos h]
    have hex : ∃ x ∈ users, x.id = u.id := by
      rw [List.any_eq_true] at h
      rcases h with ⟨x, hx, hpx⟩
      exact ⟨x, hx, by simpa using hpx⟩
    rcases hex with ⟨x, hx, hid⟩
    refine ⟨?_, fun _ => ⟨rfl, rfl⟩, ?_⟩
    · constructor
      · intro hok
        exact absurd hok (by simp)
      · intro hall
        exact absurd hid (hall x hx)
    · intro hall
      exact absurd hid (hall x hx)
  · rw [if_neg h]
    have hall : ∀ x ∈ users, x.id ≠ u.id := by
      intro x hx hcon
      apply h
      rw [List.any_eq_true]
      exact ⟨x, hx, by simpa using hcon⟩
    refine ⟨?_, ?_, fun _ => rfl⟩
    · exact ⟨fun _ => hall, fun _ => rfl⟩
    · intro hex
      rcases hex with ⟨x, hx, hid⟩
      exact absurd hid (hall x hx)

/-- Witness for C10: creating a user whose id is already present fails
with `ErrUserAlreadyExists` and leaves the store unchanged. -/
theorem c10_createUser_witness :
    (createUser [{ id := "user-1", name := "alice" }]
        { id := "user-1", name := "bob" }).1 =
      Except.error StoreErr.userAlreadyExists ∧
    (createUser [{ id := "user-1", name := "alice" }]
        { id := "user-1", name := "bob" }).2 =
      [{ id := "user-1", name := "alice" }] :=
  (c10_createUser [{ id := "user-1", name := "alice" }]
    { id := "user-1", name := "bob" }).2.1 (by decide)

end FinanceAPI
